import Mathlib

/-!
Shallow embedding of the core of `dt-cf-images` (a digital twin of the
Cloudflare Images API, written in Go) together with proofs about the
claims of its specification.

The embedding covers:
* the format detector and SVG sniffing (`internal/imageproc`, `DetectFormat`,
  `IsSVG`, `Transform`, `applyFit` and the five fit modes);
* the signed-URL verifier (`internal/handler/deliver.go`,
  `Handler.verifySignature` and `Handler.DeliverImage`);
* the keyset pagination and metadata filter engine
  (`internal/database`, `SQLiteDB.ListImagesV2` and
  `SQLiteDB.ListImagesWithFilter`);
* the V2 listing handler and its metadata-filter parsing
  (`internal/handler`, `parseMetadataFilters`, `Handler.ListImagesV2`);
* the signing-key deletion handler (`Handler.DeleteSigningKey`).

Modelling conventions:
* Go byte slices are `List Nat` (each entry a byte value `< 256` where it
  matters);
* Go `int`/`int64` are `Int`; Go `time.Time` values are abstracted to the
  linearly ordered type the code actually compares them by (`Nat` for upload
  timestamps, `Int` for unix seconds);
* external library collaborators (the `crypto/hmac` digest, the stdlib image
  codecs and the `disintegration/imaging` geometric primitives) are
  parameters of the embedded functions, since the repository only wires
  their results;
* the opaque pagination cursor string `"<uploaded RFC3339Nano>|<id>"` is
  modelled by its decoded content `Option (Nat × String)` (`none` is the
  empty cursor); the code only ever feeds back cursors it produced itself.
-/

namespace DtCfImages

/-! ### Data model (`internal/model`, `internal/database` schema) -/

/-- Image record: the fields of the `images` table that the listing and
delivery logic reads, plus the `image_metadata` rows belonging to the image
(the table's primary key `(account_id, image_id, key)` makes the metadata a
key-value map, modelled as an association list). -/
structure Image where
  accountId : String
  id : String
  uploaded : Nat
  requireSignedURLs : Bool
  meta : List (String × String)
deriving DecidableEq, Repr

/-- Variant options (`model.VariantOptions`): fit mode and target size. -/
structure VariantOptions where
  fit : String
  width : Int
  height : Int
deriving DecidableEq, Repr

/-- Variant record (`variants` table): id, options and the
`never_require_signed_urls` override. -/
structure Variant where
  id : String
  options : VariantOptions
  neverRequireSignedURLs : Bool
deriving DecidableEq, Repr

/-- Signing key (`signing_keys` table): name and secret value. -/
structure SigningKey where
  name : String
  value : String
deriving DecidableEq, Repr

end DtCfImages

namespace DtCfImages

/-! ### Keyset pagination and filter engine (`internal/database/sqlite.go`) -/

/-- The composite sort key of an image row: `(uploaded, id)`, exactly the
pair the SQL `ORDER BY uploaded, id` sorts by and the cursor encodes. -/
def imageKey (r : Image) : Nat × String :=
  (r.uploaded, r.id)

/-- `descOf sortOrder`: the SQL direction choice
`strings.EqualFold(sortOrder, "desc")`, modelled as ASCII case-insensitive
comparison (the only letters involved are ASCII). -/
def descOf (sortOrder : String) : Bool :=
  sortOrder.data.map Char.toLower = "desc".data

/-- Strict lexicographic order on character sequences by code point. This is
how SQLite's default BINARY collation orders TEXT values: memcmp over UTF-8
bytes, which coincides with code-point order. -/
def charsLt : List Char → List Char → Prop
  | [], [] => False
  | [], _ :: _ => True
  | _ :: _, [] => False
  | a :: as, b :: bs => a.toNat < b.toNat ∨ (a.toNat = b.toNat ∧ charsLt as bs)

instance instDecidableCharsLt : (x y : List Char) → Decidable (charsLt x y)
  | [], [] => isFalse id
  | [], _ :: _ => isTrue trivial
  | _ :: _, [] => isFalse id
  | _ :: as, _ :: bs =>
    haveI := instDecidableCharsLt as bs
    inferInstanceAs (Decidable (_ ∨ _))

theorem charsLt_irrefl : ∀ x : List Char, ¬ charsLt x x
  | [] => id
  | a :: as => by
    intro h
    rcases h with h | ⟨_, h'⟩
    · omega
    · exact charsLt_irrefl as h'

theorem charsLt_trans : ∀ x y z : List Char,
    charsLt x y → charsLt y z → charsLt x z := by
  intro x
  induction x with
  | nil =>
    intro y z hxy hyz
    cases y with
    | nil => exact hxy.elim
    | cons b bs =>
      cases z with
      | nil => exact hyz.elim
      | cons c cs => exact trivial
  | cons a as ih =>
    intro y z hxy hyz
    cases y with
    | nil => exact hxy.elim
    | cons b bs =>
      cases z with
      | nil => exact hyz.elim
      | cons c cs =>
        simp only [charsLt] at *
        rcases hxy with h | ⟨h, h'⟩ <;> rcases hyz with g | ⟨g, g'⟩
        · exact Or.inl (h.trans g)
        · exact Or.inl (g ▸ h)
        · exact Or.inl (h ▸ g)
        · exact Or.inr ⟨h.trans g, ih bs cs h' g'⟩

theorem charsLt_trichotomy (x : List Char) :
    ∀ y, charsLt x y ∨ x = y ∨ charsLt y x := by
  induction x with
  | nil =>
    intro y
    cases y with
    | nil => exact Or.inr (Or.inl rfl)
    | cons b bs => exact Or.inl trivial
  | cons a as ih =>
    intro y
    cases y with
    | nil => exact Or.inr (Or.inr trivial)
    | cons b bs =>
      simp only [charsLt]
      rcases Nat.lt_trichotomy a.toNat b.toNat with h | h | h
      · exact Or.inl (Or.inl h)
      · rcases ih bs with g | g | g
        · exact Or.inl (Or.inr ⟨h, g⟩)
        · exact Or.inr (Or.inl (by rw [Char.ext (UInt32.ext h), g]))
        · exact Or.inr (Or.inr (Or.inr ⟨h.symm, g⟩))
      · exact Or.inr (Or.inr (Or.inl h))

/-- `a < b` on SQLite TEXT values. -/
def strLt (a b : String) : Prop :=
  charsLt a.data b.data

/-- `a <= b` on SQLite TEXT values. -/
def strLe (a b : String) : Prop :=
  ¬ charsLt b.data a.data

instance (a b : String) : Decidable (strLt a b) := by
  unfold strLt; infer_instance

instance (a b : String) : Decidable (strLe a b) := by
  unfold strLe; infer_instance

theorem strLe_refl (a : String) : strLe a a :=
  charsLt_irrefl a.data

theorem strLe_total (a b : String) : strLe a b ∨ strLe b a := by
  by_contra h
  push_neg at h
  obtain ⟨h1, h2⟩ := h
  rw [strLe, not_not] at h1 h2
  exact charsLt_irrefl a.data (charsLt_trans _ _ _ h2 h1)

theorem strLe_trans {a b c : String} (h1 : strLe a b) (h2 : strLe b c) :
    strLe a c := by
  intro hca
  rcases charsLt_trichotomy a.data b.data with g | g | g
  · exact h2 (charsLt_trans _ _ _ hca g)
  · exact h2 (g ▸ hca)
  · exact h1 g

theorem strLe_antisymm {a b : String} (h1 : strLe a b) (h2 : strLe b a) :
    a = b := by
  rcases charsLt_trichotomy a.data b.data with g | g | g
  · exact absurd g h2
  · exact String.ext g
  · exact absurd g h1

theorem strLt_iff_not_le (a b : String) : strLt a b ↔ ¬ strLe b a := by
  rw [strLe, not_not]
  exact Iff.rfl

/-- The (non-strict) row order used by `ORDER BY uploaded d, id d`:
lexicographic on `(uploaded, id)`, reversed when `d` is `true` (DESC). -/
def kLe : Bool → Nat × String → Nat × String → Prop
  | false, a, b => a.1 < b.1 ∨ (a.1 = b.1 ∧ strLe a.2 b.2)
  | true, a, b => b.1 < a.1 ∨ (b.1 = a.1 ∧ strLe b.2 a.2)

/-- The cursor predicate of the SQL `WHERE` clause: `kAfter d c k` holds when
key `k` is strictly after the cursor key `c` in direction `d` —
`(uploaded > cTs OR (uploaded = cTs AND id > cId))` for ASC (`d = false`),
mirrored with `<` for DESC (`d = true`). -/
def kAfter : Bool → Nat × String → Nat × String → Prop
  | false, c, k => c.1 < k.1 ∨ (c.1 = k.1 ∧ strLt c.2 k.2)
  | true, c, k => k.1 < c.1 ∨ (k.1 = c.1 ∧ strLt k.2 c.2)

instance instDecidableKLe (d : Bool) (a b : Nat × String) :
    Decidable (kLe d a b) := by
  cases d <;> · unfold kLe; infer_instance

instance instDecidableKAfter (d : Bool) (c k : Nat × String) :
    Decidable (kAfter d c k) := by
  cases d <;> · unfold kAfter; infer_instance

theorem kLe_total_false (a b : Nat × String) : kLe false a b ∨ kLe false b a := by
  unfold kLe
  rcases lt_trichotomy a.1 b.1 with h | h | h
  · exact Or.inl (Or.inl h)
  · rcases strLe_total a.2 b.2 with h2 | h2
    · exact Or.inl (Or.inr ⟨h, h2⟩)
    · exact Or.inr (Or.inr ⟨h.symm, h2⟩)
  · exact Or.inr (Or.inl h)

theorem kLe_total (d : Bool) (a b : Nat × String) : kLe d a b ∨ kLe d b a := by
  cases d
  · exact kLe_total_false a b
  · exact (kLe_total_false b a)

theorem kLe_trans_false {a b c : Nat × String}
    (hab : kLe false a b) (hbc : kLe false b c) : kLe false a c := by
  unfold kLe at *
  rcases hab with h | ⟨h, h'⟩ <;> rcases hbc with g | ⟨g, g'⟩
  · exact Or.inl (lt_trans h g)
  · exact Or.inl (g ▸ h)
  · exact Or.inl (h ▸ g)
  · exact Or.inr ⟨h.trans g, strLe_trans h' g'⟩

theorem kLe_trans (d : Bool) {a b c : Nat × String}
    (hab : kLe d a b) (hbc : kLe d b c) : kLe d a c := by
  cases d
  · exact kLe_trans_false hab hbc
  · exact kLe_trans_false hbc hab

theorem kAfter_iff_not_le_false (c k : Nat × String) :
    kAfter false c k ↔ ¬ kLe false k c := by
  unfold kAfter kLe
  constructor
  · rintro (h | ⟨h, h'⟩) (g | ⟨g, g'⟩)
    · omega
    · omega
    · omega
    · exact g' h'
  · intro h
    rcases lt_trichotomy c.1 k.1 with g | g | g
    · exact Or.inl g
    · by_cases hlt : strLt c.2 k.2
      · exact Or.inr ⟨g, hlt⟩
      · exact absurd (Or.inr ⟨g.symm, hlt⟩) h
    · exact absurd (Or.inl g) h

theorem kAfter_iff_not_le (d : Bool) (c k : Nat × String) :
    kAfter d c k ↔ ¬ kLe d k c := by
  cases d
  · exact kAfter_iff_not_le_false c k
  · exact kAfter_iff_not_le_false k c

theorem kAfter_irrefl (d : Bool) (c : Nat × String) : ¬ kAfter d c c := by
  rw [kAfter_iff_not_le]
  intro h
  exact h (by cases d <;> exact Or.inr ⟨rfl, strLe_refl _⟩)

theorem kAfter_asymm (d : Bool) {a b : Nat × String}
    (h : kAfter d a b) : ¬ kAfter d b a := by
  rw [kAfter_iff_not_le] at h ⊢
  intro g
  rcases kLe_total d a b with t | t
  · exact g t
  · exact h t

/-- `kLe` plus distinct keys gives the strict "after" relation. -/
theorem kAfter_of_le_of_ne (d : Bool) {a b : Nat × String}
    (h : kLe d a b) (hne : a ≠ b) : kAfter d a b := by
  rw [kAfter_iff_not_le]
  intro g
  apply hne
  cases d
  · unfold kLe at h g
    rcases h with h | ⟨h, h'⟩ <;> rcases g with g | ⟨g, g'⟩ <;>
      first
      | omega
      | exact absurd h (by omega)
      | exact Prod.ext h (strLe_antisymm h' g')
  · unfold kLe at h g
    rcases h with h | ⟨h, h'⟩ <;> rcases g with g | ⟨g, g'⟩ <;>
      first
      | omega
      | exact absurd h (by omega)
      | exact Prod.ext h.symm (strLe_antisymm g' h')

theorem kAfter_trans (d : Bool) {a b c : Nat × String}
    (hab : kAfter d a b) (hbc : kAfter d b c) : kAfter d a c := by
  rw [kAfter_iff_not_le] at *
  intro g
  rcases kLe_total d b c with t | t
  · exact hab (kLe_trans d t g)
  · exact hbc t

/-- `kAfter c ·` is upward closed along `kLe`. -/
theorem kAfter_le_trans (d : Bool) {c a b : Nat × String}
    (h : kAfter d c a) (hab : kLe d a b) (hne : a ≠ b) : kAfter d c b :=
  kAfter_trans d h (kAfter_of_le_of_ne d hab hne)

/-- The row order lifted to image records. -/
def rowLe (d : Bool) (a b : Image) : Prop :=
  kLe d (imageKey a) (imageKey b)

instance (d : Bool) : DecidableRel (rowLe d) := fun a b => by
  unfold rowLe; infer_instance

instance (d : Bool) : IsTotal Image (rowLe d) :=
  ⟨fun _ _ => kLe_total d _ _⟩

instance (d : Bool) : IsTrans Image (rowLe d) :=
  ⟨fun _ _ _ hab hbc => kLe_trans d hab hbc⟩

/-- Evaluation of the SQL comparison `m.value <op> ?` in
`ListImagesWithFilter`: the operator string is mapped to a comparison
(`eq` to `=`, `ne` to `!=`, `lt`/`gt`/`le`/`lte`/`ge`/`gte` to the
corresponding order, anything else defaulting to `=`), applied to the stored
metadata value (left) and the filter value (right) as strings. -/
def opEval (op : String) (stored filterVal : String) : Bool :=
  if op = "eq" then stored = filterVal
  else if op = "ne" then stored ≠ filterVal
  else if op = "lt" then strLt stored filterVal
  else if op = "gt" then strLt filterVal stored
  else if op = "le" ∨ op = "lte" then strLe stored filterVal
  else if op = "ge" ∨ op = "gte" then strLe filterVal stored
  else stored = filterVal

/-- The `INNER JOIN image_metadata m ON … WHERE m.key = ? AND m.value <op> ?`
condition of `ListImagesWithFilter`, as a per-image test: the image has a
metadata row with the given key whose value satisfies the comparison.
Since `image_metadata`'s primary key is `(account_id, image_id, key)`, the
join matches at most one row per image, so it never duplicates an image and
is faithfully a boolean test. -/
def metaMatches (key op value : String) (r : Image) : Bool :=
  r.meta.any fun kv => kv.1 = key ∧ opEval op kv.2 value

/-- Core of both V2 listing queries, `SELECT … WHERE <rowPred and cursor
predicate> ORDER BY uploaded d, id d LIMIT perPage` plus the next-cursor
computation: `rows` are the images passing the non-cursor part of the
`WHERE` clause; a non-empty cursor adds the strict "after" condition; the
sorted result is limited to `perPage` rows, and the next cursor is the
`(uploaded, id)` pair of the last returned row exactly when the page is
full. -/
def keysetQuery (rows : List Image) (d : Bool) (cursor : Option (Nat × String))
    (perPage : Nat) : List Image × Option (Nat × String) :=
  let selected :=
    match cursor with
    | none => List.insertionSort (rowLe d) rows
    | some c =>
        List.insertionSort (rowLe d)
          (rows.filter fun r => decide (kAfter d c (imageKey r)))
  let images := selected.take perPage
  let nextCursor :=
    if images.length = perPage then images.getLast?.map imageKey else none
  (images, nextCursor)

/-- `SQLiteDB.ListImagesV2`: unfiltered keyset listing for one account. -/
def ListImagesV2 (db : List Image) (accountID : String)
    (cursor : Option (Nat × String)) (perPage : Nat) (sortOrder : String) :
    List Image × Option (Nat × String) :=
  keysetQuery (db.filter fun r => r.accountId = accountID) (descOf sortOrder)
    cursor perPage

/-- `SQLiteDB.ListImagesWithFilter`: keyset listing restricted by one
metadata predicate (the `INNER JOIN` against `image_metadata`). -/
def ListImagesWithFilter (db : List Image) (accountID : String)
    (cursor : Option (Nat × String)) (perPage : Nat) (sortOrder : String)
    (key op value : String) : List Image × Option (Nat × String) :=
  keysetQuery
    (db.filter fun r => r.accountId = accountID ∧ metaMatches key op value r)
    (descOf sortOrder) cursor perPage

/-! ### Pagination correctness machinery -/

/-- Strictly sorted in direction `d`: every earlier row's key is strictly
before every later row's key. -/
def StrictBy (d : Bool) (l : List Image) : Prop :=
  l.Pairwise fun a b => kAfter d (imageKey a) (imageKey b)

/-- Inserting into a sorted list commutes with filtering. -/
theorem orderedInsert_filter (d : Bool) (p : Image → Bool) (x : Image) :
    ∀ l : List Image, List.Sorted (rowLe d) l →
      (List.orderedInsert (rowLe d) x l).filter p =
        if p x then List.orderedInsert (rowLe d) x (l.filter p)
        else l.filter p
  | [], _ => by
    by_cases hx : p x <;> simp [List.orderedInsert, List.filter, hx]
  | b :: t, hs => by
    by_cases hle : rowLe d x b
    · rw [List.orderedInsert_of_le _ _ hle]
      by_cases hx : p x
      · rw [List.filter_cons_of_pos hx, if_pos hx]
        have hall : ∀ z ∈ (b :: t).filter p, rowLe d x z := by
          intro z hz
          have hzmem : z ∈ b :: t := List.mem_of_mem_filter hz
          rcases List.mem_cons.mp hzmem with rfl | hzt
          · exact hle
          · exact kLe_trans d hle (List.rel_of_sorted_cons hs z hzt)
        cases hfb : (b :: t).filter p with
        | nil => rfl
        | cons z zs =>
          have hxz : rowLe d x z := hall z (hfb ▸ List.mem_cons_self z zs)
          rw [List.orderedInsert_of_le _ _ hxz]
      · rw [List.filter_cons_of_neg (by simpa using hx), if_neg hx]
    · have ht : List.Sorted (rowLe d) t := hs.of_cons
      have ih := orderedInsert_filter d p x t ht
      simp only [List.orderedInsert, if_neg hle, List.filter_cons]
      by_cases hb : p b <;> by_cases hx : p x <;>
        simp only [hb, hx, if_true, if_false, ih, List.filter_cons] <;>
        simp [List.orderedInsert, if_neg hle, hb, hx]

/-- Insertion sort commutes with filtering (it is a stable sort). -/
theorem insertionSort_filter (d : Bool) (p : Image → Bool) :
    ∀ l : List Image,
      (List.insertionSort (rowLe d) l).filter p =
        List.insertionSort (rowLe d) (l.filter p)
  | [] => rfl
  | x :: t => by
    have ih := insertionSort_filter d p t
    simp only [List.insertionSort]
    rw [orderedInsert_filter d p x _ (List.sorted_insertionSort (rowLe d) t),
      List.filter_cons]
    by_cases hx : p x <;> simp [hx, ih, List.insertionSort]

/-- A `kLe`-sorted list whose keys are pairwise distinct is strictly sorted. -/
theorem strictBy_of_sorted_of_nodupKeys (d : Bool) {l : List Image}
    (hs : List.Sorted (rowLe d) l)
    (hd : l.Pairwise fun a b => imageKey a ≠ imageKey b) : StrictBy d l := by
  have : l.Pairwise fun a b =>
      rowLe d a b ∧ imageKey a ≠ imageKey b := List.Pairwise.and hs hd
  exact this.imp fun h => kAfter_of_le_of_ne d h.1 h.2

/-- In a strictly sorted list decomposed around an element `x`, the rows
strictly after `x`'s key are exactly the suffix after `x`. -/
theorem filter_kAfter_of_strictBy (d : Bool) (l1 l2 : List Image) (x : Image)
    (h : StrictBy d (l1 ++ x :: l2)) :
    (l1 ++ x :: l2).filter
      (fun r => decide (kAfter d (imageKey x) (imageKey r))) = l2 := by
  unfold StrictBy at h
  rw [List.pairwise_append] at h
  obtain ⟨h1, h2, hcross⟩ := h
  rw [List.filter_append, List.filter_cons]
  have hx : ¬ kAfter d (imageKey x) (imageKey x) := kAfter_irrefl d _
  have hl1 : l1.filter
      (fun r => decide (kAfter d (imageKey x) (imageKey r))) = [] := by
    rw [List.filter_eq_nil_iff]
    intro a ha
    simp only [decide_eq_true_eq]
    exact kAfter_asymm d (hcross a ha x (List.mem_cons_self x l2))
  have hl2 : l2.filter
      (fun r => decide (kAfter d (imageKey x) (imageKey r))) = l2 := by
    rw [List.filter_eq_self]
    intro a ha
    simp only [decide_eq_true_eq]
    exact (List.pairwise_cons.mp h2).1 a ha
  simp only [hl1, hl2, decide_eq_true_eq, hx, if_false, List.nil_append]

/-- The page returned after a cursor sitting at position `m` of the full
strictly sorted sequence is the suffix starting at `m + 1`. -/
theorem filter_kAfter_getElem (d : Bool) (S : List Image) (hS : StrictBy d S)
    (m : Nat) (hm : m < S.length) :
    S.filter (fun r => decide (kAfter d (imageKey S[m]) (imageKey r))) =
      S.drop (m + 1) := by
  have hdec : S = S.take m ++ S[m] :: S.drop (m + 1) := by
    conv_lhs => rw [← List.take_append_drop m S]
    rw [List.drop_eq_getElem_cons hm]
  calc S.filter (fun r => decide (kAfter d (imageKey S[m]) (imageKey r)))
      = (S.take m ++ S[m] :: S.drop (m + 1)).filter
          (fun r => decide (kAfter d (imageKey S[m]) (imageKey r))) := by
        rw [← hdec]
    _ = S.drop (m + 1) :=
        filter_kAfter_of_strictBy d _ _ _ (hdec ▸ hS)

/-- A metadata filter as parsed by the handler (`handler.metadataFilter`). -/
structure MetadataFilter where
  key : String
  op : String
  value : String
deriving DecidableEq, Repr

/-- The rows participating in a listing: the account's rows, restricted by
the metadata predicate when one is given — the non-cursor part of the SQL
`WHERE` clause of `ListImagesV2` / `ListImagesWithFilter`. -/
def matchingRows (db : List Image) (accountID : String)
    (filt : Option MetadataFilter) : List Image :=
  match filt with
  | none => db.filter fun r => r.accountId = accountID
  | some f => db.filter fun r =>
      r.accountId = accountID ∧ metaMatches f.key f.op f.value r

/-- One V2 listing call: `ListImagesWithFilter` when a metadata filter is
present, `ListImagesV2` otherwise — exactly the dispatch performed by
`Handler.ListImagesV2`. -/
def listStep (db : List Image) (accountID sortOrder : String)
    (filt : Option MetadataFilter) (perPage : Nat)
    (cursor : Option (Nat × String)) : List Image × Option (Nat × String) :=
  match filt with
  | none => ListImagesV2 db accountID cursor perPage sortOrder
  | some f => ListImagesWithFilter db accountID cursor perPage sortOrder
      f.key f.op f.value

theorem listStep_eq_keysetQuery (db : List Image) (accountID sortOrder : String)
    (filt : Option MetadataFilter) (perPage : Nat)
    (cursor : Option (Nat × String)) :
    listStep db accountID sortOrder filt perPage cursor =
      keysetQuery (matchingRows db accountID filt) (descOf sortOrder)
        cursor perPage := by
  cases filt <;> rfl

/-- The full matching sequence in the requested order: what an unbounded
(`LIMIT`-free) query would return. -/
def sortedMatching (db : List Image) (accountID sortOrder : String)
    (filt : Option MetadataFilter) : List Image :=
  List.insertionSort (rowLe (descOf sortOrder))
    (matchingRows db accountID filt)

/-- The cursor-following traversal: `pageAt … k` is the result of the
`(k+1)`-st listing call, starting from the empty cursor and feeding each
returned next cursor into the following call (after a call whose next
cursor is empty, the traversal has terminated and later pages are empty). -/
def pageAt (db : List Image) (accountID sortOrder : String)
    (filt : Option MetadataFilter) (perPage : Nat) :
    Nat → List Image × Option (Nat × String)
  | 0 => listStep db accountID sortOrder filt perPage none
  | k + 1 =>
    match (pageAt db accountID sortOrder filt perPage k).2 with
    | none => ([], none)
    | some c => listStep db accountID sortOrder filt perPage (some c)

theorem mem_matchingRows_accountId {db : List Image} {accountID : String}
    {filt : Option MetadataFilter} {a : Image}
    (h : a ∈ matchingRows db accountID filt) : a.accountId = accountID := by
  cases filt with
  | none =>
    have := (List.mem_filter.mp h).2
    simpa [decide_eq_true_eq] using this
  | some f =>
    have := (List.mem_filter.mp h).2
    simp only [decide_eq_true_eq] at this
    exact this.1

/-- `(account_id, id)` is the primary key of the `images` table: the scan
invariant the spec assumes. -/
def PrimaryKeyOk (db : List Image) : Prop :=
  db.Pairwise fun a b => a.accountId = b.accountId → a.id ≠ b.id

instance (db : List Image) : Decidable (PrimaryKeyOk db) := by
  unfold PrimaryKeyOk; infer_instance

/-- Under the primary-key invariant, the matching sequence is strictly
sorted: `(uploaded, id)` pairs are pairwise distinct within one account, so
the composite order is a strict total order on the scanned rows. -/
theorem strictBy_sortedMatching (db : List Image) (accountID sortOrder : String)
    (filt : Option MetadataFilter) (hpk : PrimaryKeyOk db) :
    StrictBy (descOf sortOrder) (sortedMatching db accountID sortOrder filt) := by
  set d := descOf sortOrder
  have hperm : (sortedMatching db accountID sortOrder filt).Perm
      (matchingRows db accountID filt) :=
    List.perm_insertionSort (rowLe d) _
  have hmr : (matchingRows db accountID filt).Pairwise
      fun a b => a.accountId = b.accountId → a.id ≠ b.id := by
    cases filt <;> exact List.Pairwise.filter _ hpk
  have hkeys : (matchingRows db accountID filt).Pairwise
      fun a b => imageKey a ≠ imageKey b := by
    refine hmr.imp_of_mem fun {a b} ha hb h => ?_
    intro hk
    exact h ((mem_matchingRows_accountId ha).trans
        (mem_matchingRows_accountId hb).symm) (congrArg Prod.snd hk)
  have hkeysS : (sortedMatching db accountID sortOrder filt).Pairwise
      fun a b => imageKey a ≠ imageKey b :=
    (hperm.pairwise_iff fun h => Ne.symm h).mpr hkeys
  exact strictBy_of_sorted_of_nodupKeys d
    (List.sorted_insertionSort (rowLe d) _) hkeysS

theorem keysetQuery_snd (rows : List Image) (d : Bool)
    (cursor : Option (Nat × String)) (n : Nat) :
    (keysetQuery rows d cursor n).2 =
      (if (keysetQuery rows d cursor n).1.length = n
       then (keysetQuery rows d cursor n).1.getLast?.map imageKey else none) := by
  cases cursor <;> rfl

theorem listStep_none_fst (db : List Image) (accountID sortOrder : String)
    (filt : Option MetadataFilter) (n : Nat) :
    (listStep db accountID sortOrder filt n none).1 =
      (sortedMatching db accountID sortOrder filt).take n := by
  rw [listStep_eq_keysetQuery]; rfl

theorem listStep_some_fst (db : List Image) (accountID sortOrder : String)
    (filt : Option MetadataFilter) (n : Nat) (c : Nat × String) :
    (listStep db accountID sortOrder filt n (some c)).1 =
      ((sortedMatching db accountID sortOrder filt).filter
        (fun r => decide (kAfter (descOf sortOrder) c (imageKey r)))).take n := by
  rw [listStep_eq_keysetQuery]
  show (List.insertionSort (rowLe (descOf sortOrder))
      ((matchingRows db accountID filt).filter
        (fun r => decide (kAfter (descOf sortOrder) c (imageKey r))))).take n = _
  rw [← insertionSort_filter]
  rfl

theorem listStep_snd (db : List Image) (accountID sortOrder : String)
    (filt : Option MetadataFilter) (n : Nat) (cursor : Option (Nat × String)) :
    (listStep db accountID sortOrder filt n cursor).2 =
      (if (listStep db accountID sortOrder filt n cursor).1.length = n
       then (listStep db accountID sortOrder filt n cursor).1.getLast?.map
         imageKey else none) := by
  rw [listStep_eq_keysetQuery]
  exact keysetQuery_snd _ _ _ _

/-- Main pagination invariant: the `(k+1)`-st page of the cursor-following
traversal is exactly the `k`-th chunk of `n` consecutive rows of the full
sorted matching sequence, and the returned cursor is the key of that
chunk's last row exactly when the chunk is full. -/
theorem pageAt_spec (db : List Image) (accountID sortOrder : String)
    (filt : Option MetadataFilter) (n : Nat) (hn : 0 < n)
    (hpk : PrimaryKeyOk db) (k : Nat) :
    (pageAt db accountID sortOrder filt n k).1 =
      ((sortedMatching db accountID sortOrder filt).drop (n * k)).take n ∧
    (pageAt db accountID sortOrder filt n k).2 =
      (if (((sortedMatching db accountID sortOrder filt).drop (n * k)).take
            n).length = n
       then (((sortedMatching db accountID sortOrder filt).drop (n * k)).take
            n).getLast?.map imageKey
       else none) := by
  set S := sortedMatching db accountID sortOrder filt with hSdef
  set d := descOf sortOrder with hddef
  have hS : StrictBy d S := strictBy_sortedMatching db accountID sortOrder filt hpk
  induction k with
  | zero =>
    constructor
    · show (listStep db accountID sortOrder filt n none).1 = _
      rw [listStep_none_fst, Nat.mul_zero, List.drop_zero]
    · show (listStep db accountID sortOrder filt n none).2 = _
      rw [listStep_snd, listStep_none_fst, Nat.mul_zero, List.drop_zero]
  | succ k ih =>
    obtain ⟨ih1, ih2⟩ := ih
    by_cases hfull : ((S.drop (n * k)).take n).length = n
    · -- the k-th chunk is full: the returned cursor points at its last row
      have hbound : n * k + n ≤ S.length := by
        have := List.length_take n (S.drop (n * k))
        have := List.length_drop (n * k) S
        omega
      have hm : n * k + (n - 1) < S.length := by omega
      have hlast : ((S.drop (n * k)).take n).getLast? =
          some (S.get ⟨n * k + (n - 1), hm⟩) := by
        rw [List.getLast?_eq_getElem?, hfull]
        rw [List.getElem?_take_of_lt (by omega : n - 1 < n),
          List.getElem?_drop]
        exact List.getElem?_eq_getElem hm
      have hcur : (pageAt db accountID sortOrder filt n k).2 =
          some (imageKey (S.get ⟨n * k + (n - 1), hm⟩)) := by
        rw [ih2, if_pos hfull, hlast, Option.map_some']
      show (pageAt db accountID sortOrder filt n (k + 1)).1 = _ ∧
        (pageAt db accountID sortOrder filt n (k + 1)).2 = _
      have hstep : pageAt db accountID sortOrder filt n (k + 1) =
          listStep db accountID sortOrder filt n
            (some (imageKey (S.get ⟨n * k + (n - 1), hm⟩))) := by
        show (match (pageAt db accountID sortOrder filt n k).2 with
          | none => (([] : List Image), (none : Option (Nat × String)))
          | some c => listStep db accountID sortOrder filt n (some c)) = _
        rw [hcur]
      have hfilter : S.filter
          (fun r => decide (kAfter d (imageKey (S.get ⟨n * k + (n - 1), hm⟩))
            (imageKey r))) = S.drop (n * k + (n - 1) + 1) :=
        filter_kAfter_getElem d S hS (n * k + (n - 1)) hm
      have hidx : n * k + (n - 1) + 1 = n * (k + 1) := by
        rw [Nat.mul_succ]; omega
      have h1 : (pageAt db accountID sortOrder filt n (k + 1)).1 =
          (S.drop (n * (k + 1))).take n := by
        rw [hstep, listStep_some_fst, ← hSdef, ← hddef, hfilter, hidx]
      refine ⟨h1, ?_⟩
      rw [hstep, listStep_snd, ← hstep, h1]
    · -- the k-th chunk is short: the traversal has terminated
      have hcur : (pageAt db accountID sortOrder filt n k).2 = none := by
        rw [ih2, if_neg hfull]
      have hstep : pageAt db accountID sortOrder filt n (k + 1) =
          (([] : List Image), (none : Option (Nat × String))) := by
        show (match (pageAt db accountID sortOrder filt n k).2 with
          | none => (([] : List Image), (none : Option (Nat × String)))
          | some c => listStep db accountID sortOrder filt n (some c)) = _
        rw [hcur]
      have hempty : (S.drop (n * (k + 1))).take n = [] := by
        have h1 := List.length_take n (S.drop (n * k))
        have h2 := List.length_drop (n * k) S
        have : S.length ≤ n * (k + 1) := by
          rw [Nat.mul_succ]; omega
        rw [List.drop_eq_nil_of_le this, List.take_nil]
      refine ⟨by rw [hstep, hempty], ?_⟩
      rw [hstep, hempty]
      show none = if ([] : List Image).length = n then _ else none
      rw [if_neg (by simpa using hn.ne)]

theorem flatMap_chunks (S : List Image) (n : Nat) :
    ∀ K, ((List.range K).flatMap fun k => (S.drop (n * k)).take n) =
      S.take (n * K)
  | 0 => by simp
  | K + 1 => by
    rw [List.range_succ, List.flatMap_append, flatMap_chunks S n K]
    simp only [List.flatMap_cons, List.flatMap_nil, List.append_nil]
    rw [Nat.mul_succ, List.take_add]

theorem nodupIds_sortedMatching (db : List Image)
    (accountID sortOrder : String) (filt : Option MetadataFilter)
    (hpk : PrimaryKeyOk db) :
    (sortedMatching db accountID sortOrder filt).Pairwise
      fun a b => a.id ≠ b.id := by
  have hperm : (sortedMatching db accountID sortOrder filt).Perm
      (matchingRows db accountID filt) :=
    List.perm_insertionSort (rowLe (descOf sortOrder)) _
  have hmr : (matchingRows db accountID filt).Pairwise
      fun a b => a.accountId = b.accountId → a.id ≠ b.id := by
    cases filt <;> exact List.Pairwise.filter _ hpk
  have hids : (matchingRows db accountID filt).Pairwise
      fun a b => a.id ≠ b.id := by
    refine hmr.imp_of_mem fun {a b} ha hb h => ?_
    exact h ((mem_matchingRows_accountId ha).trans
      (mem_matchingRows_accountId hb).symm)
  exact (hperm.pairwise_iff fun h => Ne.symm h).mpr hids

/-- Example data for concrete checks: three images of one account, two of
them sharing an upload timestamp. -/
def exImgA : Image := ⟨"acct", "a", 1, false, [("k", "1")]⟩

def exImgB : Image := ⟨"acct", "b", 2, false, []⟩

def exImgC : Image := ⟨"acct", "c", 2, false, []⟩

def exDb : List Image := [exImgB, exImgA, exImgC]

/-- Claim C1. For every account whose image records are unchanged during the
scan, every positive page size, sort direction and optional single metadata
filter: starting the V2 listing from the empty cursor and feeding each
returned next cursor into the following call visits every matching record
exactly once. Concretely: (1) the `k`-th page is exactly the `k`-th chunk of
`n` consecutive rows of the full sorted matching sequence; (2) the
concatenation of all pages is that whole sequence (no record skipped, and —
ids being pairwise distinct, conjunct (4) — no identifier returned twice);
(3) the sequence is in the strict composite `(uploaded, id)` order of the
requested direction; (5) the page after any cursor holds exactly the
matching records strictly after the cursor's `(timestamp, id)` pair. -/
theorem listV2_keyset_pagination_complete
    (db : List Image) (accountID sortOrder : String)
    (filt : Option MetadataFilter) (n : Nat) (hn : 0 < n)
    (hpk : PrimaryKeyOk db) :
    (∀ k, (pageAt db accountID sortOrder filt n k).1 =
      ((sortedMatching db accountID sortOrder filt).drop (n * k)).take n) ∧
    ((List.range
        ((sortedMatching db accountID sortOrder filt).length / n + 1)).flatMap
      fun k => (pageAt db accountID sortOrder filt n k).1) =
        sortedMatching db accountID sortOrder filt ∧
    StrictBy (descOf sortOrder) (sortedMatching db accountID sortOrder filt) ∧
    (sortedMatching db accountID sortOrder filt).Pairwise
      (fun a b => a.id ≠ b.id) ∧
    ∀ c, (listStep db accountID sortOrder filt n (some c)).1 =
      ((sortedMatching db accountID sortOrder filt).filter
        fun r => decide (kAfter (descOf sortOrder) c (imageKey r))).take n := by
  refine ⟨fun k => (pageAt_spec db accountID sortOrder filt n hn hpk k).1, ?_,
    strictBy_sortedMatching db accountID sortOrder filt hpk,
    nodupIds_sortedMatching db accountID sortOrder filt hpk,
    fun c => listStep_some_fst db accountID sortOrder filt n c⟩
  have hfun : (fun k => (pageAt db accountID sortOrder filt n k).1) =
      fun k =>
        ((sortedMatching db accountID sortOrder filt).drop (n * k)).take n :=
    funext fun k => (pageAt_spec db accountID sortOrder filt n hn hpk k).1
  rw [hfun, flatMap_chunks]
  set S := sortedMatching db accountID sortOrder filt
  have h1 : n * (S.length / n + 1) = n * (S.length / n) + n := Nat.mul_succ n _
  have h2 := Nat.div_add_mod S.length n
  have h3 : S.length % n < n := Nat.mod_lt _ hn
  exact List.take_of_length_le (by omega)

theorem listV2_keyset_pagination_complete_witness :
    0 < 2 ∧ PrimaryKeyOk exDb ∧
    (pageAt exDb "acct" "asc" none 2 0).1 = [exImgA, exImgB] ∧
    (pageAt exDb "acct" "asc" none 2 1).1 = [exImgC] ∧
    (pageAt exDb "acct" "asc" none 2 2).1 = [] := by
  have h := listV2_keyset_pagination_complete exDb "acct" "asc" none 2
    (by decide) (by decide)
  refine ⟨by decide, by decide, ?_, ?_, ?_⟩
  · rw [h.1 0]; decide
  · rw [h.1 1]; decide
  · rw [h.1 2]; decide

theorem keysetQuery_nextCursor_iff_full (rows : List Image) (d : Bool)
    (cursor : Option (Nat × String)) (n : Nat) (hn : 0 < n) :
    (keysetQuery rows d cursor n).2 ≠ none ↔
      (keysetQuery rows d cursor n).1.length = n := by
  rw [keysetQuery_snd]
  constructor
  · intro h
    by_contra hne
    rw [if_neg hne] at h
    exact h rfl
  · intro h
    rw [if_pos h]
    have hne : (keysetQuery rows d cursor n).1 ≠ [] := by
      intro he
      rw [he] at h
      simp only [List.length_nil] at h
      omega
    cases hl : (keysetQuery rows d cursor n).1.getLast? with
    | none => exact absurd (List.getLast?_eq_none_iff.mp hl) hne
    | some x => simp

/-- Claim C8. For every successful V2 listing call (filtered or unfiltered)
with a positive page size (as every handler-issued call has): the returned
next cursor is non-empty iff the number of returned records equals the page
size; every shorter page, including an empty one, yields an empty cursor. -/
theorem listV2_nextCursor_iff_full_page
    (db : List Image) (accountID sortOrder key op value : String)
    (cursor : Option (Nat × String)) (n : Nat) (hn : 0 < n) :
    ((ListImagesV2 db accountID cursor n sortOrder).2 ≠ none ↔
      (ListImagesV2 db accountID cursor n sortOrder).1.length = n) ∧
    ((ListImagesWithFilter db accountID cursor n sortOrder key op value).2 ≠
        none ↔
      (ListImagesWithFilter db accountID cursor n sortOrder key op
        value).1.length = n) :=
  ⟨keysetQuery_nextCursor_iff_full _ _ _ _ hn,
   keysetQuery_nextCursor_iff_full _ _ _ _ hn⟩

theorem listV2_nextCursor_iff_full_page_witness :
    0 < 2 ∧
    (ListImagesV2 exDb "acct" none 2 "asc").2 ≠ none ∧
    ¬ ((ListImagesWithFilter exDb "acct" none 10 "asc" "k" "eq" "1").2 ≠
      none) := by
  refine ⟨by decide, ?_, ?_⟩
  · exact (listV2_nextCursor_iff_full_page exDb "acct" "asc" "k" "eq" "1"
      none 2 (by decide)).1.mpr (by decide)
  · intro h
    have := (listV2_nextCursor_iff_full_page exDb "acct" "asc" "k" "eq" "1"
      none 10 (by decide)).2.mp h
    revert this
    decide

/-! ### Image processing (`internal/imageproc/processor.go`) -/

/-- `bytes.Contains`: `sub` occurs as a contiguous run inside `l`. -/
def containsSub (sub : List Nat) : List Nat → Bool
  | [] => sub.isPrefixOf []
  | x :: rest => sub.isPrefixOf (x :: rest) || containsSub sub rest

/-- The bytes of the marker `"<svg"` searched for by `IsSVG`. -/
def svgMarker : List Nat := [60, 115, 118, 103]

/-- The bytes of the marker `"<?xml"` searched for by `IsSVG`. -/
def xmlMarker : List Nat := [60, 63, 120, 109, 108]

/-- `imageproc.IsSVG`: scan the first 512 bytes (or the whole buffer when
shorter) for SVG markers: the content is SVG when the header contains
`"<svg"`, or contains `"<?xml"` and also `"<svg"`. -/
def IsSVG (data : List Nat) : Bool :=
  if data.length = 0 then false
  else
    let limit := if data.length < 512 then data.length else 512
    let header := data.take limit
    containsSub svgMarker header ||
      (containsSub xmlMarker header && containsSub svgMarker header)

/-- `imageproc.DetectFormat`: classify by fixed magic-byte prefixes —
`FF D8 FF` for JPEG, the 8-byte PNG signature, ASCII `GIF` for GIF,
`RIFF….WEBP` for WebP, empty string when unknown. -/
def DetectFormat (data : List Nat) : String :=
  if 3 ≤ data.length ∧ data.getD 0 0 = 0xFF ∧ data.getD 1 0 = 0xD8 ∧
      data.getD 2 0 = 0xFF then "jpeg"
  else if 8 ≤ data.length ∧ data.getD 0 0 = 0x89 ∧ data.getD 1 0 = 0x50 ∧
      data.getD 2 0 = 0x4E ∧ data.getD 3 0 = 0x47 ∧ data.getD 4 0 = 0x0D ∧
      data.getD 5 0 = 0x0A ∧ data.getD 6 0 = 0x1A ∧ data.getD 7 0 = 0x0A then
    "png"
  else if 6 ≤ data.length ∧ data.getD 0 0 = 71 ∧ data.getD 1 0 = 73 ∧
      data.getD 2 0 = 70 then "gif"
  else if 12 ≤ data.length ∧ data.getD 0 0 = 82 ∧ data.getD 1 0 = 73 ∧
      data.getD 2 0 = 70 ∧ data.getD 3 0 = 70 ∧ data.getD 8 0 = 87 ∧
      data.getD 9 0 = 69 ∧ data.getD 10 0 = 66 ∧ data.getD 11 0 = 80 then
    "webp"
  else ""

/-- An in-memory decoded image as the transform code sees it: the code only
reads `Bounds().Dx()` and `Bounds().Dy()`, so a decoded image is its
dimension pair (Go `int`s). -/
structure GoImage where
  width : Int
  height : Int
deriving DecidableEq, Repr

/-- The geometric primitives of the external `disintegration/imaging`
library used by the fit modes; the repository only wires their results, so
they are abstract parameters of the embedding. `pasteCenterOnNew w h img`
stands for `imaging.PasteCenter(imaging.New(w, h, image.White), img)`. -/
structure ImagingOps where
  fit : GoImage → Int → Int → GoImage
  resize : GoImage → Int → Int → GoImage
  fill : GoImage → Int → Int → GoImage
  cropCenter : GoImage → Int → Int → GoImage
  pasteCenterOnNew : Int → Int → GoImage → GoImage

/-- Truncation of a rational toward zero: Go's `int(x)` float-to-int
conversion (the float arithmetic of `fitContain` is modelled exactly over
the rationals). -/
def ratTrunc (q : ℚ) : Int :=
  if q < 0 then ⌈q⌉ else ⌊q⌋

/-- `imageproc.fitScaleDown`: shrink to fit within the target box, never
enlarging — if the source already fits on both axes, the image is returned
unchanged, otherwise `imaging.Fit` shrinks it. -/
def fitScaleDown (ops : ImagingOps) (img : GoImage)
    (origW origH targetW targetH : Int) : GoImage :=
  if origW ≤ targetW ∧ origH ≤ targetH then img
  else ops.fit img targetW targetH

/-- `imageproc.fitContain`: aspect-preserving resize that may enlarge —
`scale = min(targetW/origW, targetH/origH)`, new dimensions rounded via
`int(x + 0.5)` and clamped to at least 1 (float arithmetic modelled over
the rationals; division by a zero dimension differs from Go's float
infinity but is outside every claim). -/
def fitContain (ops : ImagingOps) (img : GoImage)
    (targetW targetH : Int) : GoImage :=
  let origW := img.width
  let origH := img.height
  let scaleW : ℚ := (targetW : ℚ) / (origW : ℚ)
  let scaleH : ℚ := (targetH : ℚ) / (origH : ℚ)
  let scale := if scaleH < scaleW then scaleH else scaleW
  let newW0 := ratTrunc ((origW : ℚ) * scale + 1 / 2)
  let newH0 := ratTrunc ((origH : ℚ) * scale + 1 / 2)
  let newW := if newW0 < 1 then 1 else newW0
  let newH := if newH0 < 1 then 1 else newH0
  ops.resize img newW newH

/-- `imageproc.fitCover`: `imaging.Fill` to the exact target size. -/
def fitCover (ops : ImagingOps) (img : GoImage)
    (targetW targetH : Int) : GoImage :=
  ops.fill img targetW targetH

/-- `imageproc.fitCrop`: `imaging.CropCenter` to the exact target size. -/
def fitCrop (ops : ImagingOps) (img : GoImage)
    (targetW targetH : Int) : GoImage :=
  ops.cropCenter img targetW targetH

/-- `imageproc.fitPad`: `imaging.Fit` then paste centered on a white canvas
of the exact target size. -/
def fitPad (ops : ImagingOps) (img : GoImage)
    (targetW targetH : Int) : GoImage :=
  let fitted := ops.fit img targetW targetH
  ops.pasteCenterOnNew targetW targetH fitted

/-- `imageproc.applyFit`: a requested width/height of 0 means "use the
source dimension"; dispatch on the fit-mode string, defaulting to
scale-down for unrecognized values. -/
def applyFit (ops : ImagingOps) (img : GoImage)
    (opts : VariantOptions) : GoImage :=
  let origW := img.width
  let origH := img.height
  let targetW := if opts.width = 0 then origW else opts.width
  let targetH := if opts.height = 0 then origH else opts.height
  match opts.fit with
  | "scale-down" => fitScaleDown ops img origW origH targetW targetH
  | "contain" => fitContain ops img targetW targetH
  | "cover" => fitCover ops img targetW targetH
  | "crop" => fitCrop ops img targetW targetH
  | "pad" => fitPad ops img targetW targetH
  | _ => fitScaleDown ops img origW origH targetW targetH

/-- The external stdlib codecs used by `Transform`/`encodeImage`:
`image.Decode` and the `jpeg` (quality 85), `png`, `gif` encoders, abstract
collaborators returning `none` on a codec error. -/
structure Codecs where
  decode : List Nat → Option GoImage
  encodeJPEG : GoImage → Option (List Nat)
  encodePNG : GoImage → Option (List Nat)
  encodeGIF : GoImage → Option (List Nat)

/-- `imageproc.encodeImage`: re-encode to the original detected format;
any other format is an error (`none`). -/
def encodeImage (c : Codecs) (img : GoImage) (format : String) :
    Option (List Nat) :=
  match format with
  | "jpeg" => c.encodeJPEG img
  | "png" => c.encodePNG img
  | "gif" => c.encodeGIF img
  | _ => none

/-- `imageproc.Transform`: SVG passthrough first, then GIF passthrough,
then unknown-format error, then decode → `applyFit` → re-encode to the
original format. Returns the output bytes and the output format, `none` on
error. -/
def Transform (c : Codecs) (ops : ImagingOps) (data : List Nat)
    (opts : VariantOptions) : Option (List Nat × String) :=
  if IsSVG data then some (data, "svg")
  else
    let format := DetectFormat data
    if format = "gif" then some (data, "gif")
    else if format = "" then none
    else
      match c.decode data with
      | none => none
      | some img =>
        match encodeImage c (applyFit ops img opts) format with
        | none => none
        | some out => some (out, format)

/-- Concrete imaging primitives for witnesses: each op yields an image of
the requested target size (the dimension behaviour of the real library). -/
def exOps : ImagingOps :=
  ⟨fun _ w h => ⟨w, h⟩, fun _ w h => ⟨w, h⟩, fun _ w h => ⟨w, h⟩,
   fun _ w h => ⟨w, h⟩, fun w h _ => ⟨w, h⟩⟩

/-- Concrete codecs for witnesses: every codec fails, which the passthrough
paths never reach. -/
def exCodecs : Codecs :=
  ⟨fun _ => none, fun _ => none, fun _ => none, fun _ => none⟩

/-- The bytes `"GIF89a"`. -/
def exGifBytes : List Nat := [71, 73, 70, 56, 57, 97]

/-- The bytes `"<svg></svg>"`. -/
def exSvgBytes : List Nat := [60, 115, 118, 103, 62, 60, 47, 115, 118, 103, 62]

/-- Claim C5. For every decoded raster image and every variant whose fit is
`"scale-down"` — or any value outside the five recognized modes, which
falls to the same default — with the effective target being the source
dimension wherever the requested value is 0: when the source fits within
the effective target on both axes, the transform returns the image
unchanged, so the output dimensions equal the source dimensions exactly. -/
theorem applyFit_scaleDown_never_enlarges
    (ops : ImagingOps) (img : GoImage) (opts : VariantOptions)
    (hfit : opts.fit = "scale-down" ∨
      (opts.fit ≠ "scale-down" ∧ opts.fit ≠ "contain" ∧ opts.fit ≠ "cover" ∧
        opts.fit ≠ "crop" ∧ opts.fit ≠ "pad"))
    (hw : img.width ≤ (if opts.width = 0 then img.width else opts.width))
    (hh : img.height ≤ (if opts.height = 0 then img.height else opts.height)) :
    applyFit ops img opts = img ∧
    (applyFit ops img opts).width = img.width ∧
    (applyFit ops img opts).height = img.height := by
  have key : applyFit ops img opts =
      fitScaleDown ops img img.width img.height
        (if opts.width = 0 then img.width else opts.width)
        (if opts.height = 0 then img.height else opts.height) := by
    unfold applyFit
    rcases hfit with h | ⟨h1, h2, h3, h4, h5⟩
    · rw [h]
      rfl
    · split <;> simp_all
  have heq : applyFit ops img opts = img := by
    rw [key]
    unfold fitScaleDown
    rw [if_pos ⟨hw, hh⟩]
  exact ⟨heq, by rw [heq], by rw [heq]⟩

theorem applyFit_scaleDown_never_enlarges_witness :
    applyFit exOps ⟨100, 100⟩ ⟨"scale-down", 200, 200⟩ = ⟨100, 100⟩ ∧
    applyFit exOps ⟨100, 100⟩ ⟨"unrecognized-fit", 200, 0⟩ = ⟨100, 100⟩ := by
  constructor
  · exact (applyFit_scaleDown_never_enlarges exOps ⟨100, 100⟩
      ⟨"scale-down", 200, 200⟩ (Or.inl rfl) (by decide) (by decide)).1
  · exact (applyFit_scaleDown_never_enlarges exOps ⟨100, 100⟩
      ⟨"unrecognized-fit", 200, 0⟩ (Or.inr (by decide))
      (by decide) (by decide)).1

/-- Claim C6. Every input detected as SVG is returned byte-identical with
format `"svg"`, and every input detected as GIF (and not as SVG) is
returned byte-identical with format `"gif"`, for every variant options
value and regardless of the codecs and imaging primitives — no decode,
resize, or re-encode is applied. -/
theorem transform_gif_svg_passthrough
    (c : Codecs) (ops : ImagingOps) (data : List Nat)
    (opts : VariantOptions) :
    (IsSVG data = true → Transform c ops data opts = some (data, "svg")) ∧
    (IsSVG data = false → DetectFormat data = "gif" →
      Transform c ops data opts = some (data, "gif")) := by
  constructor
  · intro h
    unfold Transform
    rw [h]
    rfl
  · intro h hg
    unfold Transform
    rw [h, hg]
    rfl

theorem transform_gif_svg_passthrough_witness :
    IsSVG exSvgBytes = true ∧
    Transform exCodecs exOps exSvgBytes ⟨"cover", 10, 10⟩ =
      some (exSvgBytes, "svg") ∧
    IsSVG exGifBytes = false ∧
    DetectFormat exGifBytes = "gif" ∧
    Transform exCodecs exOps exGifBytes ⟨"cover", 10, 10⟩ =
      some (exGifBytes, "gif") := by
  refine ⟨by decide, ?_, by decide, by decide, ?_⟩
  · exact (transform_gif_svg_passthrough exCodecs exOps exSvgBytes
      ⟨"cover", 10, 10⟩).1 (by decide)
  · exact (transform_gif_svg_passthrough exCodecs exOps exGifBytes
      ⟨"cover", 10, 10⟩).2 (by decide) (by decide)

/-- The bytes of the closed tag `"<svg>"` — the substring the specification
says `IsSVG` scans for (definition follows the spec's words, for comparison
with the source's `svgMarker`). -/
def svgClosedTagSpec : List Nat := [60, 115, 118, 103, 62]

/-- Claim C7 counterexample. The buffer `"<svg "` is classified as SVG by the
code although its first 512 bytes do not contain the substring `"<svg>"`:
the code scans for `"<svg"` without the closing bracket, so the claimed
iff fails. -/
theorem isSVG_closed_tag_cex :
    IsSVG [60, 115, 118, 103, 32] = true ∧
    containsSub svgClosedTagSpec
      (([60, 115, 118, 103, 32] : List Nat).take 512) = false := by
  decide

/-- Claim C7, amended. A buffer is classified as SVG iff its first 512 bytes
(the whole buffer if shorter) contain the substring `"<svg"` — the closing
bracket is not required, and the XML-declaration disjunct of the code is
redundant (it only repeats the `"<svg"` test). The SVG classification takes
precedence over the magic-byte formats: any input it accepts is returned by
`Transform` as SVG, whatever its leading bytes. -/
theorem isSVG_iff_contains_svg_open :
    (∀ data : List Nat, IsSVG data = containsSub svgMarker (data.take 512)) ∧
    (∀ (c : Codecs) (ops : ImagingOps) (data : List Nat)
      (opts : VariantOptions),
      IsSVG data = true → Transform c ops data opts = some (data, "svg")) := by
  constructor
  · intro data
    unfold IsSVG
    by_cases h0 : data.length = 0
    · rw [if_pos h0, List.length_eq_zero.mp h0]
      rfl
    · rw [if_neg h0]
      have hhdr : data.take (if data.length < 512 then data.length else 512) =
          data.take 512 := by
        split
        · rw [List.take_length, List.take_of_length_le (by omega)]
        · rfl
      simp only [hhdr]
      cases containsSub svgMarker (data.take 512) <;> simp
  · intro c ops data opts h
    unfold Transform
    rw [h]
    rfl

theorem isSVG_iff_contains_svg_open_witness :
    IsSVG [60, 115, 118, 103, 32] =
      containsSub svgMarker (([60, 115, 118, 103, 32] : List Nat).take 512) ∧
    IsSVG exSvgBytes = true ∧
    Transform exCodecs exOps exSvgBytes ⟨"crop", 3, 3⟩ =
      some (exSvgBytes, "svg") := by
  refine ⟨isSVG_iff_contains_svg_open.1 [60, 115, 118, 103, 32],
    by decide, ?_⟩
  exact isSVG_iff_contains_svg_open.2 exCodecs exOps exSvgBytes
    ⟨"crop", 3, 3⟩ (by decide)

/-! ### Signed-URL verifier (`internal/handler/deliver.go`) -/

/-- The value of a decimal digit character, `none` otherwise. -/
def digitVal? (c : Char) : Option Nat :=
  if 48 ≤ c.toNat ∧ c.toNat ≤ 57 then some (c.toNat - 48) else none

def parseDigitsAux : List Char → Nat → Option Nat
  | [], acc => some acc
  | c :: rest, acc =>
    match digitVal? c with
    | none => none
    | some dd => parseDigitsAux rest (acc * 10 + dd)

/-- Parse a non-empty run of decimal digits as a natural number; `none` on
an empty string or a non-digit character. -/
def parseDigits : List Char → Option Nat
  | [] => none
  | c :: rest => parseDigitsAux (c :: rest) 0

/-- `strconv.ParseInt(s, 10, 64)`: optional sign, decimal digits, 64-bit
range check; `none` models a parse error. -/
def parseInt64 (s : String) : Option Int :=
  match s.data with
  | [] => none
  | c :: rest =>
    if c = '-' then
      (parseDigits rest).bind fun n =>
        if n ≤ 2 ^ 63 then some (-(n : Int)) else none
    else if c = '+' then
      (parseDigits rest).bind fun n =>
        if n ≤ 2 ^ 63 - 1 then some ((n : Int)) else none
    else
      (parseDigits (c :: rest)).bind fun n =>
        if n ≤ 2 ^ 63 - 1 then some ((n : Int)) else none

/-- The decimal digit character for `n < 10`. -/
def digitChar (n : Nat) : Char :=
  Char.ofNat (48 + n)

/-- The decimal digit string of a natural number (most significant digit
first). -/
def natDigits (n : Nat) : List Char :=
  if _h : n < 10 then [digitChar n]
  else natDigits (n / 10) ++ [digitChar (n % 10)]
decreasing_by exact Nat.div_lt_self (by omega) (by omega)

/-- The decimal text of an `int64` value, as Go's `strconv.FormatInt`
and `fmt` print it. -/
def intToDecimalString (i : Int) : String :=
  if i < 0 then "-" ++ ⟨natDigits i.natAbs⟩ else ⟨natDigits i.natAbs⟩

/-- The value of a hexadecimal digit character (either case), `none`
otherwise. -/
def hexDigitVal? (c : Char) : Option Nat :=
  if 48 ≤ c.toNat ∧ c.toNat ≤ 57 then some (c.toNat - 48)
  else if 97 ≤ c.toNat ∧ c.toNat ≤ 102 then some (c.toNat - 87)
  else if 65 ≤ c.toNat ∧ c.toNat ≤ 70 then some (c.toNat - 55)
  else none

def hexDecodeList : List Char → Option (List Nat)
  | [] => some []
  | [_] => none
  | c1 :: c2 :: rest =>
    match hexDigitVal? c1, hexDigitVal? c2, hexDecodeList rest with
    | some hi, some lo, some bs => some ((hi * 16 + lo) :: bs)
    | _, _, _ => none

/-- `hex.DecodeString`: pairs of hex digits to bytes; `none` on odd length
or an invalid character. -/
def hexDecode (s : String) : Option (List Nat) :=
  hexDecodeList s.data

/-- The lowercase hex digit character for `n < 16`. -/
def hexDigitChar (n : Nat) : Char :=
  if n < 10 then Char.ofNat (48 + n) else Char.ofNat (87 + n)

/-- `hex.EncodeToString`: two lowercase hex digits per byte. -/
def hexEncode (bs : List Nat) : String :=
  ⟨bs.flatMap fun b => [hexDigitChar (b / 16), hexDigitChar (b % 16)]⟩

/-- `Handler.verifySignature`. The HMAC-SHA256 digest of `crypto/hmac` is an
external collaborator, passed as `hmacSHA256 key message` (a byte list;
the real digest is 32 bytes, each `< 256`); `now` is `time.Now().Unix()`;
`keys` is the account's signing-key list from `ListSigningKeys`. Mirrors
the Go checks in order: empty `sig`/`exp`, unparsable `exp`, expired `exp`,
non-hex `sig`, empty key set, then the any-key HMAC comparison over the
message `"/cdn/{account}/{image}/{variant}" + expStr`. -/
def verifySignature (hmacSHA256 : String → String → List Nat) (now : Int)
    (keys : List SigningKey) (accountID imageID variantName : String)
    (sigHex expStr : String) : Bool :=
  if sigHex = "" ∨ expStr = "" then false
  else
    match parseInt64 expStr with
    | none => false
    | some expUnix =>
      if now > expUnix then false
      else
        match hexDecode sigHex with
        | none => false
        | some sig =>
          if keys.length = 0 then false
          else
            let path := "/cdn/" ++ accountID ++ "/" ++ imageID ++ "/" ++
              variantName
            let message := path ++ expStr
            keys.any fun key => sig = hmacSHA256 key.value message

theorem digitVal_digitChar {n : Nat} (h : n < 10) :
    digitVal? (digitChar n) = some n := by
  interval_cases n <;> rfl

theorem parseDigitsAux_append (l1 l2 : List Char) :
    ∀ acc, parseDigitsAux (l1 ++ l2) acc =
      (parseDigitsAux l1 acc).bind fun a => parseDigitsAux l2 a := by
  induction l1 with
  | nil => intro acc; rfl
  | cons c rest ih =>
    intro acc
    show parseDigitsAux (c :: (rest ++ l2)) acc = _
    cases hdv : digitVal? c with
    | none => simp only [parseDigitsAux, hdv, Option.none_bind]
    | some dd =>
      simp only [parseDigitsAux, hdv, Option.some_bind]
      exact ih (acc * 10 + dd)

theorem natDigits_ne_nil (n : Nat) : natDigits n ≠ [] := by
  unfold natDigits
  split
  · exact List.cons_ne_nil _ _
  · exact fun h => List.append_ne_nil_of_right_ne_nil _
      (List.cons_ne_nil _ _) h

theorem parseDigitsAux_natDigits (n : Nat) :
    ∀ acc, parseDigitsAux (natDigits n) acc =
      some (acc * 10 ^ (natDigits n).length + n) := by
  induction n using Nat.strong_induction_on with
  | _ n ih =>
    intro acc
    by_cases h : n < 10
    · rw [natDigits, dif_pos h]
      show parseDigitsAux [digitChar n] acc = _
      simp only [parseDigitsAux, digitVal_digitChar h]
      simp
    · rw [natDigits, dif_neg h]
      rw [parseDigitsAux_append,
        ih (n / 10) (Nat.div_lt_self (by omega) (by omega)) acc,
        Option.some_bind]
      simp only [parseDigitsAux,
        digitVal_digitChar (Nat.mod_lt n (by omega : (0 : Nat) < 10))]
      congr 1
      rw [List.length_append, List.length_singleton, pow_succ]
      have hdm := Nat.div_add_mod n 10
      set X := (10 : Nat) ^ (natDigits (n / 10)).length
      calc (acc * X + n / 10) * 10 + n % 10
          = acc * (X * 10) + (10 * (n / 10) + n % 10) := by ring
        _ = acc * (X * 10) + n := by rw [hdm]

theorem parseDigits_natDigits (n : Nat) :
    parseDigits (natDigits n) = some n := by
  cases hnd : natDigits n with
  | nil => exact absurd hnd (natDigits_ne_nil n)
  | cons c rest =>
    show parseDigitsAux (c :: rest) 0 = some n
    rw [← hnd, parseDigitsAux_natDigits]
    simp

theorem natDigits_head_digit (n : Nat) :
    ∃ c rest, natDigits n = c :: rest ∧ 48 ≤ c.toNat ∧ c.toNat ≤ 57 := by
  induction n using Nat.strong_induction_on with
  | _ n ih =>
    by_cases h : n < 10
    · refine ⟨digitChar n, [], by rw [natDigits, dif_pos h], ?_, ?_⟩ <;>
        · interval_cases n <;> decide
    · obtain ⟨c, rest, heq, h1, h2⟩ :=
        ih (n / 10) (Nat.div_lt_self (by omega) (by omega))
      exact ⟨c, rest ++ [digitChar (n % 10)],
        by rw [natDigits, dif_neg h, heq]; rfl, h1, h2⟩

theorem intToDecimalString_ne_empty (i : Int) : intToDecimalString i ≠ "" := by
  unfold intToDecimalString
  obtain ⟨c, rest, heq, -, -⟩ := natDigits_head_digit i.natAbs
  intro h
  split at h <;>
  · have := congrArg String.data h
    rw [heq] at this
    simp at this

theorem parseInt64_intToDecimalString (i : Int)
    (hlo : -(2 ^ 63) ≤ i) (hhi : i ≤ 2 ^ 63 - 1) :
    parseInt64 (intToDecimalString i) = some i := by
  have h63n : ((2 : Nat) ^ 63) = 9223372036854775808 := by norm_num
  have h63i : ((2 : Int) ^ 63) = 9223372036854775808 := by norm_num
  rw [h63i] at hlo hhi
  obtain ⟨c, rest, heq, hc1, hc2⟩ := natDigits_head_digit i.natAbs
  by_cases hneg : i < 0
  · have hdata : (intToDecimalString i).data = '-' :: natDigits i.natAbs := by
      unfold intToDecimalString
      rw [if_pos hneg]
      rfl
    have habs : (i.natAbs : Int) = -i := by omega
    unfold parseInt64
    rw [hdata]
    show (if ('-' : Char) = '-' then
        (parseDigits (natDigits i.natAbs)).bind fun n =>
          if n ≤ 2 ^ 63 then some (-(n : Int)) else none
      else if ('-' : Char) = '+' then
        (parseDigits (natDigits i.natAbs)).bind fun n =>
          if n ≤ 2 ^ 63 - 1 then some ((n : Int)) else none
      else
        (parseDigits ('-' :: natDigits i.natAbs)).bind fun n =>
          if n ≤ 2 ^ 63 - 1 then some ((n : Int)) else none) = some i
    rw [if_pos rfl, parseDigits_natDigits, Option.some_bind,
      if_pos (by rw [h63n]; omega : i.natAbs ≤ 2 ^ 63), habs, neg_neg]
  · have hdata : (intToDecimalString i).data = natDigits i.natAbs := by
      unfold intToDecimalString
      rw [if_neg hneg]
    have habs : (i.natAbs : Int) = i := by omega
    have hcm : ¬ c = '-' := by
      intro h
      rw [h] at hc1
      simp at hc1
    have hcp : ¬ c = '+' := by
      intro h
      rw [h] at hc1
      simp at hc1
    unfold parseInt64
    rw [hdata, heq]
    show (if c = '-' then
        (parseDigits rest).bind fun n =>
          if n ≤ 2 ^ 63 then some (-(n : Int)) else none
      else if c = '+' then
        (parseDigits rest).bind fun n =>
          if n ≤ 2 ^ 63 - 1 then some ((n : Int)) else none
      else
        (parseDigits (c :: rest)).bind fun n =>
          if n ≤ 2 ^ 63 - 1 then some ((n : Int)) else none) = some i
    rw [if_neg hcm, if_neg hcp, ← heq, parseDigits_natDigits,
      Option.some_bind,
      if_pos (by rw [h63n]; omega : i.natAbs ≤ 2 ^ 63 - 1), habs]

theorem hexDigitVal_hexDigitChar {n : Nat} (h : n < 16) :
    hexDigitVal? (hexDigitChar n) = some n := by
  interval_cases n <;> rfl

theorem hexDecode_hexEncode (bs : List Nat) (hb : ∀ b ∈ bs, b < 256) :
    hexDecode (hexEncode bs) = some bs := by
  show hexDecodeList (bs.flatMap
    fun b => [hexDigitChar (b / 16), hexDigitChar (b % 16)]) = some bs
  induction bs with
  | nil => rfl
  | cons b rest ih =>
    have hb0 : b < 256 := hb b (List.mem_cons_self b rest)
    rw [List.flatMap_cons]
    show hexDecodeList (hexDigitChar (b / 16) :: hexDigitChar (b % 16) ::
      rest.flatMap fun b => [hexDigitChar (b / 16), hexDigitChar (b % 16)]) =
      some (b :: rest)
    simp only [hexDecodeList,
      hexDigitVal_hexDigitChar (by omega : b / 16 < 16),
      hexDigitVal_hexDigitChar (Nat.mod_lt b (by omega : (0 : Nat) < 16)),
      ih fun x hx => hb x (List.mem_cons_of_mem b hx)]
    congr 2
    omega

theorem hexEncode_ne_empty {bs : List Nat} (h : bs ≠ []) :
    hexEncode bs ≠ "" := by
  cases bs with
  | nil => exact absurd rfl h
  | cons b rest =>
    intro heq
    have := congrArg String.data heq
    simp [hexEncode] at this

/-- Claim C2. For every delivery request reaching signature verification:
(1) if the account has at least one registered key, `exp` is a 64-bit
decimal not in the past, and `sig` is the lowercase hex of the HMAC-SHA256
digest (an external collaborator; its digests are non-empty byte lists)
of `"/cdn/{account}/{image}/{variant}"` followed by the decimal text of
`exp`, keyed by the secret of any one registered key in any position, then
verification returns `true`; (2) with zero registered keys, verification
returns `false` for every request. -/
theorem verifySignature_accepts_valid_key
    (hmacSHA256 : String → String → List Nat) (now expUnix : Int)
    (keys : List SigningKey) (key : SigningKey)
    (accountID imageID variantName : String)
    (hmem : key ∈ keys)
    (hlo : -(2 ^ 63) ≤ expUnix) (hhi : expUnix ≤ 2 ^ 63 - 1)
    (hnotpast : now ≤ expUnix)
    (hbytes : ∀ b ∈ hmacSHA256 key.value
      ("/cdn/" ++ accountID ++ "/" ++ imageID ++ "/" ++ variantName ++
        intToDecimalString expUnix), b < 256)
    (hne : hmacSHA256 key.value
      ("/cdn/" ++ accountID ++ "/" ++ imageID ++ "/" ++ variantName ++
        intToDecimalString expUnix) ≠ []) :
    verifySignature hmacSHA256 now keys accountID imageID variantName
      (hexEncode (hmacSHA256 key.value
        ("/cdn/" ++ accountID ++ "/" ++ imageID ++ "/" ++ variantName ++
          intToDecimalString expUnix)))
      (intToDecimalString expUnix) = true ∧
    ∀ (hm2 : String → String → List Nat) (now2 : Int)
      (a2 i2 v2 sig2 exp2 : String),
      verifySignature hm2 now2 [] a2 i2 v2 sig2 exp2 = false := by
  constructor
  · have hsig_ne : hexEncode (hmacSHA256 key.value
        ("/cdn/" ++ accountID ++ "/" ++ imageID ++ "/" ++ variantName ++
          intToDecimalString expUnix)) ≠ "" := hexEncode_ne_empty hne
    have hexp_ne : intToDecimalString expUnix ≠ "" :=
      intToDecimalString_ne_empty _
    have hparse := parseInt64_intToDecimalString expUnix hlo hhi
    have hdec := hexDecode_hexEncode _ hbytes
    have hnotgt : ¬ (now > expUnix) := not_lt.mpr hnotpast
    have hlen : ¬ (keys.length = 0) := by
      intro h
      rw [List.length_eq_zero] at h
      exact absurd (h ▸ hmem) (List.not_mem_nil key)
    unfold verifySignature
    rw [if_neg (not_or.mpr ⟨hsig_ne, hexp_ne⟩), hparse]
    show (if now > expUnix then false else _) = true
    rw [if_neg hnotgt, hdec]
    show (if keys.length = 0 then false else _) = true
    rw [if_neg hlen]
    refine List.any_eq_true.mpr ⟨key, hmem, ?_⟩
    simp
  · intro hm2 now2 a2 i2 v2 sig2 exp2
    unfold verifySignature
    by_cases h1 : sig2 = "" ∨ exp2 = ""
    · rw [if_pos h1]
    · rw [if_neg h1]
      cases parseInt64 exp2 with
      | none => rfl
      | some e =>
        show (if now2 > e then false else _) = false
        by_cases h2 : now2 > e
        · rw [if_pos h2]
        · rw [if_neg h2]
          cases hexDecode sig2 with
          | none => rfl
          | some sig =>
            rfl

/-- A concrete stand-in digest function for witnesses: one data-dependent
byte followed by a constant byte. -/
def exHmac : String → String → List Nat :=
  fun k m => [(k.length + m.length) % 256, 7]

theorem verifySignature_accepts_valid_key_witness :
    verifySignature exHmac 50 [⟨"k1", "s1"⟩, ⟨"k2", "s2"⟩] "acct" "img" "pub"
      (hexEncode (exHmac "s2"
        ("/cdn/" ++ "acct" ++ "/" ++ "img" ++ "/" ++ "pub" ++
          intToDecimalString 100)))
      (intToDecimalString 100) = true ∧
    verifySignature exHmac 50 [] "acct" "img" "pub" "aa" "100" = false := by
  have h := verifySignature_accepts_valid_key exHmac 50 100
    [⟨"k1", "s1"⟩, ⟨"k2", "s2"⟩] ⟨"k2", "s2"⟩ "acct" "img" "pub"
    (by decide) (by norm_num) (by norm_num) (by norm_num)
    (by
      intro b hb
      unfold exHmac at hb
      rcases List.mem_cons.mp hb with rfl | hb2
      · exact Nat.mod_lt _ (by omega)
      · rcases List.mem_cons.mp hb2 with rfl | h3
        · omega
        · simp at h3)
    (by unfold exHmac; exact List.cons_ne_nil _ _)
  exact ⟨h.1, h.2 exHmac 50 "acct" "img" "pub" "aa" "100"⟩

/-- Claim C3. Verification denies (returns `false`) whenever the `sig`
parameter is absent or empty, the `exp` parameter is absent or empty, `exp`
does not parse as a decimal integer, `exp` is strictly before the current
time, or `sig` is not valid hex — regardless of the account's signing keys
and of the digest function. -/
theorem verifySignature_fails_closed
    (hmacSHA256 : String → String → List Nat) (now : Int)
    (keys : List SigningKey) (accountID imageID variantName : String)
    (sigHex expStr : String)
    (h : sigHex = "" ∨ expStr = "" ∨ parseInt64 expStr = none ∨
      (∃ e, parseInt64 expStr = some e ∧ e < now) ∨
      hexDecode sigHex = none) :
    verifySignature hmacSHA256 now keys accountID imageID variantName
      sigHex expStr = false := by
  unfold verifySignature
  by_cases h1 : sigHex = "" ∨ expStr = ""
  · rw [if_pos h1]
  · rw [if_neg h1]
    rcases h with h | h | h | ⟨e, he, hlt⟩ | h
    · exact absurd (Or.inl h) h1
    · exact absurd (Or.inr h) h1
    · rw [h]
    · rw [he]
      show (if now > e then false else _) = false
      rw [if_pos hlt]
    · cases hp : parseInt64 expStr with
      | none => rfl
      | some e =>
        show (if now > e then false else _) = false
        by_cases h2 : now > e
        · rw [if_pos h2]
        · rw [if_neg h2, h]

theorem verifySignature_fails_closed_witness :
    verifySignature exHmac 50 [⟨"k1", "s1"⟩] "acct" "img" "pub" "" "100"
        = false ∧
    verifySignature exHmac 50 [⟨"k1", "s1"⟩] "acct" "img" "pub" "aa" ""
        = false ∧
    verifySignature exHmac 50 [⟨"k1", "s1"⟩] "acct" "img" "pub" "aa" "12x"
        = false ∧
    verifySignature exHmac 50 [⟨"k1", "s1"⟩] "acct" "img" "pub" "aa" "49"
        = false ∧
    verifySignature exHmac 50 [⟨"k1", "s1"⟩] "acct" "img" "pub" "zz" "100"
        = false :=
  ⟨verifySignature_fails_closed exHmac 50 [⟨"k1", "s1"⟩] "acct" "img" "pub"
      "" "100" (Or.inl rfl),
   verifySignature_fails_closed exHmac 50 [⟨"k1", "s1"⟩] "acct" "img" "pub"
      "aa" "" (Or.inr (Or.inl rfl)),
   verifySignature_fails_closed exHmac 50 [⟨"k1", "s1"⟩] "acct" "img" "pub"
      "aa" "12x" (Or.inr (Or.inr (Or.inl (by decide)))),
   verifySignature_fails_closed exHmac 50 [⟨"k1", "s1"⟩] "acct" "img" "pub"
      "aa" "49" (Or.inr (Or.inr (Or.inr (Or.inl
        ⟨49, by decide, by norm_num⟩)))),
   verifySignature_fails_closed exHmac 50 [⟨"k1", "s1"⟩] "acct" "img" "pub"
      "zz" "100" (Or.inr (Or.inr (Or.inr (Or.inr (by decide)))))⟩

/-- `handler.formatToContentType`: output format to MIME type, generic
binary type for anything unrecognized. -/
def formatToContentType (format : String) : String :=
  match format with
  | "jpeg" => "image/jpeg"
  | "png" => "image/png"
  | "gif" => "image/gif"
  | "webp" => "image/webp"
  | "svg" => "image/svg+xml"
  | _ => "application/octet-stream"

/-- The outcome of `Handler.DeliverImage` as seen by the client. -/
inductive DeliverResult where
  | notFound
  | forbidden
  | internalError
  | ok (body : List Nat) (contentType : String)
deriving DecidableEq, Repr

/-- `Handler.DeliverImage`: image and variant lookup (their results are the
`Option` parameters), then — only when global enforcement is on, the image
requires signed URLs and the variant does not override — the signature
check, whose result enters as `verified`; then blob retrieval and
`Transform`, with the `Content-Type` derived from the output format. -/
def DeliverImage (enforceSignedURLs : Bool) (img? : Option Image)
    (variant? : Option Variant) (verified : Bool)
    (blob? : Option (List Nat)) (c : Codecs) (ops : ImagingOps) :
    DeliverResult :=
  match img? with
  | none => .notFound
  | some img =>
    match variant? with
    | none => .notFound
    | some variant =>
      if enforceSignedURLs && img.requireSignedURLs &&
          !variant.neverRequireSignedURLs && !verified then .forbidden
      else
        match blob? with
        | none => .notFound
        | some data =>
          match Transform c ops data variant.options with
          | none => .internalError
          | some (out, format) => .ok out (formatToContentType format)

/-- Claim C4. The signed-URL verifier is consulted iff global enforcement is
enabled, the image's `requireSignedURLs` flag is set, and the variant's
`neverRequireSignedURLs` override is unset: (1) when any of the three is
false, the outcome does not depend on the verifier's answer and is never
`forbidden`; (2) when all three hold, a failed verification yields
`forbidden` and a successful one proceeds to transformation and is never
`forbidden`. -/
theorem deliverImage_signature_gating
    (enforce : Bool) (img : Image) (variant : Variant)
    (blob? : Option (List Nat)) (c : Codecs) (ops : ImagingOps) :
    (¬ (enforce = true ∧ img.requireSignedURLs = true ∧
        variant.neverRequireSignedURLs = false) →
      (∀ v w : Bool,
        DeliverImage enforce (some img) (some variant) v blob? c ops =
        DeliverImage enforce (some img) (some variant) w blob? c ops) ∧
      ∀ v : Bool,
        DeliverImage enforce (some img) (some variant) v blob? c ops ≠
          .forbidden) ∧
    ((enforce = true ∧ img.requireSignedURLs = true ∧
        variant.neverRequireSignedURLs = false) →
      DeliverImage enforce (some img) (some variant) false blob? c ops =
        .forbidden ∧
      DeliverImage enforce (some img) (some variant) true blob? c ops ≠
        .forbidden) := by
  constructor
  · intro hno
    have hcond : ∀ v : Bool, (enforce && img.requireSignedURLs &&
        !variant.neverRequireSignedURLs && !v) = false := by
      intro v
      cases he : enforce <;> cases hr : img.requireSignedURLs <;>
        cases hv : variant.neverRequireSignedURLs <;> cases v <;>
        simp_all
    constructor
    · intro v w
      show (if (enforce && img.requireSignedURLs &&
            !variant.neverRequireSignedURLs && !v) = true then _ else _) =
          (if (enforce && img.requireSignedURLs &&
            !variant.neverRequireSignedURLs && !w) = true then _ else _)
      rw [hcond v, hcond w]
    · intro v
      show (if (enforce && img.requireSignedURLs &&
          !variant.neverRequireSignedURLs && !v) = true then _ else _) ≠ _
      rw [hcond v]
      simp only [Bool.false_eq_true, if_false]
      cases blob? with
      | none => simp
      | some data =>
        cases ht : Transform c ops data variant.options with
        | none => simp [ht]
        | some p =>
          obtain ⟨out, format⟩ := p
          simp [ht]
  · rintro ⟨he, hr, hv⟩
    constructor
    · show (if (enforce && img.requireSignedURLs &&
          !variant.neverRequireSignedURLs && !false) = true
        then DeliverResult.forbidden else _) = _
      rw [he, hr, hv]
      rfl
    · show (if (enforce && img.requireSignedURLs &&
          !variant.neverRequireSignedURLs && !true) = true then _ else _) ≠ _
      rw [he, hr, hv]
      simp only [Bool.not_true, Bool.and_false, Bool.false_eq_true, if_false]
      cases blob? with
      | none => simp
      | some data =>
        cases ht : Transform c ops data variant.options with
        | none => simp [ht]
        | some p =>
          obtain ⟨out, format⟩ := p
          simp [ht]

theorem deliverImage_signature_gating_witness :
    (DeliverImage false (some exImgA) (some ⟨"pub", ⟨"cover", 1, 1⟩, false⟩)
        false (some exGifBytes) exCodecs exOps =
      DeliverImage false (some exImgA) (some ⟨"pub", ⟨"cover", 1, 1⟩, false⟩)
        true (some exGifBytes) exCodecs exOps) ∧
    DeliverImage true (some ⟨"acct", "a", 1, true, []⟩)
        (some ⟨"pub", ⟨"cover", 1, 1⟩, false⟩) false (some exGifBytes)
        exCodecs exOps = .forbidden := by
  constructor
  · exact ((deliverImage_signature_gating false exImgA
      ⟨"pub", ⟨"cover", 1, 1⟩, false⟩ (some exGifBytes) exCodecs exOps).1
      (by simp)).1 false true
  · exact ((deliverImage_signature_gating true ⟨"acct", "a", 1, true, []⟩
      ⟨"pub", ⟨"cover", 1, 1⟩, false⟩ (some exGifBytes) exCodecs exOps).2
      ⟨rfl, rfl, rfl⟩).1

/-! ### V2 listing handler (`internal/handler/images_v2.go`) -/

/-- The characters of the query-parameter marker `"metadata["`. -/
def metaParamHead : List Char := "metadata[".data

/-- The shape parsing of one query-parameter name in
`parseMetadataFilters`: a name of the form `metadata[key][op]` yields
`some (key, op)`; any other shape is skipped (`none`). Mirrors the Go
steps — `strings.HasPrefix`, `strings.TrimPrefix`, `strings.Index` of the
first `]`, then the `[`-prefix and `]`-suffix checks and the inner slice. -/
def parseFilterParam (param : List Char) : Option (String × String) :=
  if metaParamHead.isPrefixOf param then
    let rest := param.drop metaParamHead.length
    match rest.findIdx? fun ch => ch = ']' with
    | none => none
    | some closeBracket =>
      let key := rest.take closeBracket
      let rest2 := rest.drop (closeBracket + 1)
      if rest2.head? = some '[' ∧ rest2.getLast? = some ']' then
        some (⟨key⟩, ⟨(rest2.drop 1).dropLast⟩)
      else none
  else none

/-- `handler.parseMetadataFilters` over the query parameters (the Go
`url.Values` map is modelled as a list of `(name, values)` entries in an
arbitrary iteration order): well-formed `metadata[key][op]` names with a
recognized operator and at least one value contribute a filter; a
malformed name is skipped; an unrecognized operator aborts with an
error. -/
def parseMetadataFilters :
    List (String × List String) → Except String (List MetadataFilter)
  | [] => .ok []
  | (param, values) :: rest =>
    match parseFilterParam param.data with
    | none => parseMetadataFilters rest
    | some (key, op) =>
      if op = "eq" ∨ op = "ne" ∨ op = "lt" ∨ op = "gt" ∨ op = "lte" ∨
          op = "gte" then
        match parseMetadataFilters rest with
        | .error e => .error e
        | .ok fs =>
          match values with
          | v :: _ => .ok (⟨key, op, v⟩ :: fs)
          | [] => .ok fs
      else .error ("unsupported metadata filter operator: " ++ op)

/-- The body of `Handler.ListImagesV2` after parameter parsing, as seen by
the client: a bad-request error, or a page plus next cursor. -/
inductive ListV2Response where
  | badRequest (msg : String)
  | ok (images : List Image) (nextCursor : Option (Nat × String))
deriving DecidableEq, Repr

/-- `Handler.ListImagesV2`: parse the metadata filters (error means bad
request), reject more than five filters, then query through
`ListImagesWithFilter` using only the first filter when any is present,
through `ListImagesV2` otherwise. -/
def ListImagesV2Handler (db : List Image) (accountID : String)
    (query : List (String × List String)) (cursor : Option (Nat × String))
    (perPage : Nat) (sortOrder : String) : ListV2Response :=
  match parseMetadataFilters query with
  | .error e => .badRequest e
  | .ok filters =>
    if filters.length > 5 then .badRequest "too many metadata filters (max 5)"
    else
      match filters with
      | f :: _ =>
        let res := ListImagesWithFilter db accountID cursor perPage sortOrder
          f.key f.op f.value
        .ok res.1 res.2
      | [] =>
        let res := ListImagesV2 db accountID cursor perPage sortOrder
        .ok res.1 res.2

/-- Two orderings of the same two metadata filter parameters (the Go query
map iterates in unspecified order). -/
def exQ1 : List (String × List String) :=
  [("metadata[k][eq]", ["1"]), ("metadata[j][eq]", ["2"])]

def exQ2 : List (String × List String) :=
  [("metadata[j][eq]", ["2"]), ("metadata[k][eq]", ["1"])]

/-- Claim C9. For a V2 listing request carrying several well-formed metadata
filter parameters: (1) more than five parsed filters is rejected as a
bad-input error before any query runs; (2) otherwise exactly the first
parsed filter is applied and all others are silently ignored; (3) which
filter comes first is not determined by the request — two orderings of the
same parameter set (related by a permutation, as the Go map iteration may
produce either) can yield different responses. -/
theorem listV2_handler_multiple_filters
    (db : List Image) (accountID : String)
    (query : List (String × List String)) (cursor : Option (Nat × String))
    (perPage : Nat) (sortOrder : String) (filters : List MetadataFilter)
    (hparse : parseMetadataFilters query = .ok filters) :
    (5 < filters.length →
      ListImagesV2Handler db accountID query cursor perPage sortOrder =
        .badRequest "too many metadata filters (max 5)") ∧
    (∀ f rest, filters = f :: rest → filters.length ≤ 5 →
      ListImagesV2Handler db accountID query cursor perPage sortOrder =
        .ok (ListImagesWithFilter db accountID cursor perPage sortOrder
            f.key f.op f.value).1
          (ListImagesWithFilter db accountID cursor perPage sortOrder
            f.key f.op f.value).2) ∧
    (exQ1.Perm exQ2 ∧
      ListImagesV2Handler exDb "acct" exQ1 none 20 "asc" ≠
        ListImagesV2Handler exDb "acct" exQ2 none 20 "asc") := by
  refine ⟨?_, ?_, List.Perm.swap _ _ _, by decide⟩
  · intro h5
    unfold ListImagesV2Handler
    rw [hparse]
    show (if filters.length > 5 then
        ListV2Response.badRequest "too many metadata filters (max 5)"
      else _) = _
    rw [if_pos h5]
  · intro f rest heq hle
    subst heq
    unfold ListImagesV2Handler
    rw [hparse]
    show (if (f :: rest).length > 5 then
        ListV2Response.badRequest "too many metadata filters (max 5)"
      else _) = _
    rw [if_neg (by simp only [List.length_cons] at hle ⊢; omega)]

theorem listV2_handler_multiple_filters_witness :
    parseMetadataFilters exQ1 =
      .ok [⟨"k", "eq", "1"⟩, ⟨"j", "eq", "2"⟩] ∧
    ListImagesV2Handler exDb "acct" exQ1 none 20 "asc" =
      .ok (ListImagesWithFilter exDb "acct" none 20 "asc" "k" "eq" "1").1
        (ListImagesWithFilter exDb "acct" none 20 "asc" "k" "eq" "1").2 ∧
    ListImagesV2Handler exDb "acct" exQ1 none 20 "asc" ≠
      ListImagesV2Handler exDb "acct" exQ2 none 20 "asc" := by
  have h := listV2_handler_multiple_filters exDb "acct" exQ1 none 20 "asc"
    [⟨"k", "eq", "1"⟩, ⟨"j", "eq", "2"⟩] rfl
  exact ⟨rfl,
    h.2.1 ⟨"k", "eq", "1"⟩ [⟨"j", "eq", "2"⟩] rfl (by decide),
    h.2.2.2⟩

/-! ### Signing-key deletion (`internal/handler/keys.go`) -/

/-- `SQLiteDB.DeleteSigningKey`: `DELETE … WHERE account_id = ? AND
name = ?` followed by the rows-affected check — `none` (not found) when no
key of that name existed, otherwise the remaining key set of the account. -/
def dbDeleteSigningKey (keys : List SigningKey) (name : String) :
    Option (List SigningKey) :=
  let remaining := keys.filter fun k => ¬ (k.name = name)
  if remaining.length = keys.length then none else some remaining

/-- `Handler.DeleteSigningKey` over one account's key set: delete (a
failure becomes the not-found response, `none`); then, when
`ListSigningKeys` shows no key is left, create a `"default"` key with a
freshly generated secret (`freshSecret` stands for the generated
`uuid.New().String()`). Returns the account's final key set on success. -/
def DeleteSigningKeyHandler (keys : List SigningKey)
    (keyName freshSecret : String) : Option (List SigningKey) :=
  match dbDeleteSigningKey keys keyName with
  | none => none
  | some remaining =>
    if remaining.length = 0 then some [⟨"default", freshSecret⟩]
    else some remaining

/-- Claim C10. After every successful `DeleteSigningKey` request the
account's signing-key set is non-empty: when the deleted key was the last
one, a fresh key named `"default"` is created in the same request. -/
theorem deleteSigningKey_never_leaves_zero_keys
    (keys : List SigningKey) (keyName freshSecret : String)
    (result : List SigningKey)
    (h : DeleteSigningKeyHandler keys keyName freshSecret = some result) :
    result ≠ [] ∧
    ((keys.filter fun k => ¬ (k.name = keyName)) = [] →
      result = [⟨"default", freshSecret⟩]) := by
  unfold DeleteSigningKeyHandler dbDeleteSigningKey at h
  split at h
  · exact absurd h (by simp)
  · rename_i remaining heq
    have heq2 : (if (List.filter (fun k => decide ¬ (k.name = keyName))
          keys).length = keys.length then none
        else some (List.filter (fun k => decide ¬ (k.name = keyName))
          keys)) = some remaining := heq
    clear heq
    split at heq2
    · exact absurd heq2 (by simp)
    · have hrem : List.filter (fun k => decide ¬ (k.name = keyName)) keys =
          remaining := Option.some_inj.mp heq2
      split at h
      · rename_i hzero
        have hres := Option.some_inj.mp h
        subst hres
        refine ⟨by simp, fun _ => rfl⟩
      · rename_i hzero
        have hres := Option.some_inj.mp h
        subst hres
        refine ⟨?_, ?_⟩
        · intro he
          exact hzero (by rw [he]; rfl)
        · intro he
          rw [hrem] at he
          exact absurd (by rw [he]; rfl : remaining.length = 0) hzero

theorem deleteSigningKey_never_leaves_zero_keys_witness :
    DeleteSigningKeyHandler [⟨"only", "s"⟩] "only" "fresh" =
      some [⟨"default", "fresh"⟩] ∧
    ([⟨"default", "fresh"⟩] : List SigningKey) ≠ [] := by
  have h := deleteSigningKey_never_leaves_zero_keys [⟨"only", "s"⟩] "only"
    "fresh" [⟨"default", "fresh"⟩] (by decide)
  exact ⟨by decide, h.1⟩
